import Mathlib

/-!
Verification development for the alert-window aggregator of
`kpireport/plugins/prometheus.py` (class `PrometheusAlertSummary`).

Instants and durations are modelled as rationals measured in seconds;
Python `datetime`/`timedelta` values have microsecond precision and embed
into `ℚ` exactly.  A window is a pair `(start, end)`.
-/

namespace Kpi

/-- What `_parse_resolution` can raise: `ValueError("Invalid resolution
format")` when the regex `([0-9]+)([smhdwy])` does not match at the start of
the string, and the `TypeError` that `timedelta(years=n)` raises — Python's
`datetime.timedelta` accepts no `years` keyword argument, although the
regex and the unit mapping in the source both list `y`. -/
inductive ResolutionError
  | invalidFormat
  | yearsTypeError
deriving DecidableEq, Repr

/-- Seconds in one resolution unit, as `timedelta(**{unit: n})` computes
them.  `'y'` is absent: `timedelta` rejects a `years` argument. -/
def unitSeconds : Char → ℚ
  | 'm' => 60
  | 'h' => 3600
  | 'd' => 86400
  | 'w' => 604800
  | _ => 1

/-- `int(...)` on a run of ASCII digits. -/
def digitsVal (ds : List Char) : ℕ :=
  ds.foldl (fun n c => 10 * n + (c.toNat - Char.toNat '0')) 0

/-- `_parse_resolution` (prometheus.py:110-126).  `re.match` anchors at the
start of the string only, so `([0-9]+)([smhdwy])` consumes the longest digit
prefix plus one unit character and ignores any trailing characters.  A match
with unit `y` then fails inside `timedelta(**{"years": n})`. -/
def parse_resolution (s : String) : Except ResolutionError ℚ :=
  let l := s.toList
  let ds := l.takeWhile Char.isDigit
  match l.dropWhile Char.isDigit with
  | [] => .error .invalidFormat
  | u :: _ =>
    if ds = [] then .error .invalidFormat
    else if u ∈ (['s', 'm', 'h', 'd', 'w'] : List Char) then
      .ok ((digitsVal ds : ℚ) * unitSeconds u)
    else if u = 'y' then .error .yearsTypeError
    else .error .invalidFormat

/-- One iteration of the loop body of `_compute_time_windows`
(prometheus.py:134-140).  The accumulator holds the windows built so far in
reverse order, so its head is the source's `windows[-1]`. -/
def ctw_step (res : ℚ) (acc : List (ℚ × ℚ)) (t : ℚ) : List (ℚ × ℚ) :=
  match acc with
  | [] => [(t, t + res)]
  | (s, e) :: rest =>
    if t > e then (t, t + res) :: (s, e) :: rest else (s, t + res) :: rest

/-- `_compute_time_windows` (prometheus.py:128-142): seed
`windows = [[ts[0], ts[0]+resolution]]`, then fold the loop body over the
whole list — the source's `for ts in list_ts` revisits `list_ts[0]`. -/
def compute_time_windows (res : ℚ) (ts : List ℚ) : List (ℚ × ℚ) :=
  match ts with
  | [] => []
  | t0 :: _ => (ts.foldl (ctw_step res) [(t0, t0 + res)]).reverse

/-- Insert one window into an already start-sorted list, after every element
whose start is ≤ its own (the placement Python's stable sort gives an
element arriving later in the input). -/
def insert_by_start (w : ℚ × ℚ) : List (ℚ × ℚ) → List (ℚ × ℚ)
  | [] => [w]
  | x :: xs => if x.1 ≤ w.1 then x :: insert_by_start w xs else w :: x :: xs

/-- `sorted(windows, key=itemgetter(0))` (prometheus.py:145): Python's stable
sort by window start. -/
def sort_by_start (ws : List (ℚ × ℚ)) : List (ℚ × ℚ) :=
  ws.foldl (fun acc w => insert_by_start w acc) []

/-- One iteration of the loop body of `_compress_time_windows`
(prometheus.py:147-151), accumulator reversed as in `ctw_step`; the `[]`
case corresponds to the source's `compressed = sorted_windows[:1]`
initialisation. -/
def compress_step (acc : List (ℚ × ℚ)) (w : ℚ × ℚ) : List (ℚ × ℚ) :=
  match acc with
  | [] => [w]
  | (s, e) :: rest =>
    if w.1 < e then (s, max e w.2) :: rest else (w.1, w.2) :: (s, e) :: rest

/-- `_compress_time_windows` (prometheus.py:144-152). -/
def compress_time_windows (ws : List (ℚ × ℚ)) : List (ℚ × ℚ) :=
  ((sort_by_start ws).foldl compress_step []).reverse

/-- `_total_time` (prometheus.py:154-156): `reduce` of `end - start` from
`timedelta(0)`. -/
def total_time (ws : List (ℚ × ℚ)) : ℚ :=
  ws.foldl (fun agg x => agg + (x.2 - x.1)) 0

/-- Python's `round(x, 2)` on the exact rational value.  (CPython rounds the
nearest binary double half-to-even; ties, which no statement below
exercises, may differ.) -/
def round2 (x : ℚ) : ℚ := ((round (100 * x) : ℤ) : ℚ) / 100

/-- `_normalize_time_windows` (prometheus.py:158-165): `start` is the
report's `start_date`, `td` its `timedelta`. -/
def normalize_time_windows (start td : ℚ) (ws : List (ℚ × ℚ)) : List (ℚ × ℚ) :=
  ws.map (fun w =>
    (max 0 (round2 (100 * (w.1 - start) / td)), round2 (100 * (w.2 - w.1) / td)))

/-- `df_a["time"].dt.round(offset)` (prometheus.py:190-192): round each
sample time to the nearest multiple of the resolution.  (Pandas breaks exact
ties toward the even multiple; no statement below sits on a tie.) -/
def round_to_res (res t : ℚ) : ℚ := res * ((round (t / res) : ℤ) : ℚ)

/-- One row of the `ALERTS` query table: the `time` and `value` columns, the
`alertname` and `alertstate` series labels, and the remaining labels as a
key-value list — a key absent from `labels` models a NaN cell of that label
column. -/
structure Row where
  time : ℚ
  value : ℚ
  alertname : String
  alertstate : String
  labels : List (String × String)
deriving DecidableEq, Repr

/-- The per-alert record appended at prometheus.py:210-215. -/
structure AlertSummary where
  alertname : String
  total_time : ℚ
  num_firings : ℕ
  windows : List (ℚ × ℚ)
deriving DecidableEq, Repr

/-- The dict `_template_vars` returns (prometheus.py:222-226). -/
structure TemplateVars where
  summary : List AlertSummary
  timeline : List (ℚ × ℚ)
  show_timeline : Bool
deriving DecidableEq, Repr

/-- The view configuration `_template_vars` reads: the parsed resolution,
`ignore_labels`, the optional `labels` equality filter (`none` models a
falsy `self.labels`), and `show_timeline`. -/
structure ViewCfg where
  resolution : ℚ
  ignore_labels : List String
  labels : Option (List (String × String))
  show_timeline : Bool

/-- The report range: `start_date` and `timedelta = end_date - start_date`. -/
structure ReportCfg where
  start_date : ℚ
  timedelta : ℚ

/-- `pandas.Series.unique` / first appearance of each distinct value, in
input order. -/
def unique_keep {α : Type} [DecidableEq α] : List α → List α
  | [] => []
  | a :: l => a :: unique_keep (l.filter (fun b => decide (b ≠ a)))
termination_by l => l.length
decreasing_by
  simp only [List.length_cons]
  exact Nat.lt_succ_of_le (List.length_filter_le _ _)

/-- Lexicographic order on label-value tuples, the order pandas sorts group
keys in (`groupby` has `sort=True` by default). -/
def lex_le : List String → List String → Bool
  | [], _ => true
  | _ :: _, [] => false
  | a :: as, b :: bs => if a < b then true else if a = b then lex_le as bs else false

def insert_lex (k : List String) : List (List String) → List (List String)
  | [] => [k]
  | x :: xs => if lex_le x k then x :: insert_lex k xs else k :: x :: xs

def sort_lex (ks : List (List String)) : List (List String) :=
  ks.foldl (fun acc k => insert_lex k acc) []

/-- A row's key under grouping columns `ls`: its label values in column
order.  (`""` is the `getD` default only; rows with a missing grouping label
are dropped before keys are formed.) -/
def row_key (ls : List String) (row : Row) : List String :=
  ls.map (fun k => (row.labels.lookup k).getD "")

/-- `df_a.groupby(labels)["time"]` (prometheus.py:195-196): rows with a NaN
in any grouping column are dropped (pandas `groupby` default `dropna=True`),
group keys come out sorted ascending (`sort=True` default), and each group's
times keep row order. -/
def group_times (ls : List String) (rowsA : List Row) : List (List String × List ℚ) :=
  let kept := rowsA.filter (fun row => ls.all (fun k => (row.labels.lookup k).isSome))
  let keys := sort_lex (unique_keep (kept.map (row_key ls)))
  keys.map (fun k => (k, (kept.filter (fun row => decide (row_key ls row = k))).map Row.time))

/-- `all_firings` (prometheus.py:197-206): the concatenation over label
groups of each group's constructed windows. -/
def all_firings (res : ℚ) (ls : List String) (rowsA : List Row) : List (ℚ × ℚ) :=
  ((group_times ls rowsA).map (fun g => compute_time_windows res g.2)).flatten

/-- The label columns of the queried table after
`df.drop(labels=["__name__", "alertstate"] + self.ignore_labels)`
(prometheus.py:179-180), in first-appearance order across rows. -/
def df_columns (ignored : List String) (rows : List Row) : List String :=
  (unique_keep ((rows.map (fun row => row.labels.map Prod.fst)).flatten)).filter
    (fun k => decide (k ∉ ignored))

/-- `df_a = df[df["alertname"] == alertname]` with its times rounded to the
resolution (prometheus.py:184-192). -/
def alert_rows (res : ℚ) (rows : List Row) (a : String) : List Row :=
  (rows.filter (fun row => decide (row.alertname = a))).map
    (fun row => { row with time := round_to_res res row.time })

/-- `df_a.dropna(how="all", axis="columns")` (prometheus.py:188): keep the
label columns present in at least one of this alert's rows. -/
def surviving_cols (cols : List String) (rowsA : List Row) : List String :=
  cols.filter (fun k => rowsA.any (fun row => (row.labels.lookup k).isSome))

/-- The per-alert-name loop body of `_template_vars` (prometheus.py:183-215):
select the alert's rows, round their times, keep its present label columns,
group, build windows, compress their union. -/
def alert_summary_for (res : ℚ) (cols : List String) (rows : List Row) (a : String) :
    AlertSummary :=
  let rowsA := alert_rows res rows a
  let fs := all_firings res (surviving_cols cols rowsA) rowsA
  let ws := compress_time_windows fs
  { alertname := a, total_time := total_time ws, num_firings := fs.length, windows := ws }

/-- The row-filtering semantics of `df[df["alertstate"] == "firing"]`
(prometheus.py:173), valid when the frame HAS an `alertstate` column.  On
the columnless `pd.DataFrame()` an empty query result produces, that line
instead raises `KeyError`; that error path is modelled by
`template_vars_checked` below. -/
def firing_rows (tbl : List Row) : List Row :=
  tbl.filter (fun row => decide (row.alertstate = "firing"))

/-- The row-filtering semantics of the `self.labels` equality loop
(prometheus.py:175-177), valid when every filter key is a column of the
frame (a row whose cell is NaN compares unequal and is dropped, hence the
`lookup _ = some _` test).  `df[df[key] == value]` on a missing column
instead raises `KeyError`; that error path is modelled by
`template_vars_checked` below. -/
def apply_labels_filter (lf : Option (List (String × String))) (rows : List Row) :
    List Row :=
  match lf with
  | none => rows
  | some ps => ps.foldl
      (fun acc kv => acc.filter (fun row => decide (row.labels.lookup kv.1 = some kv.2)))
      rows

/-- The filtered table `df` of prometheus.py:169-180: firing rows, the
`labels` equality filter applied. -/
def pipeline_df (v : ViewCfg) (tbl : List Row) : List Row :=
  apply_labels_filter v.labels (firing_rows tbl)

/-- The grouping-eligible label columns of the filtered table. -/
def pipeline_cols (v : ViewCfg) (tbl : List Row) : List String :=
  df_columns (["__name__", "alertstate"] ++ v.ignore_labels) (pipeline_df v tbl)

/-- The `summary` list in alert-name first-appearance order
(prometheus.py:182-215), before the `total_time` ranking. -/
def encounter_summaries (v : ViewCfg) (tbl : List Row) : List AlertSummary :=
  (unique_keep ((pipeline_df v tbl).map Row.alertname)).map
    (alert_summary_for v.resolution (pipeline_cols v tbl) (pipeline_df v tbl))

/-- Insertion step of `sorted(summary, key=itemgetter("total_time"),
reverse=True)` (prometheus.py:217-218): Python's sort is stable, so an
element lands after every earlier element whose key is ≥ its own. -/
def insert_summary (a : AlertSummary) : List AlertSummary → List AlertSummary
  | [] => [a]
  | b :: l => if a.total_time ≤ b.total_time then b :: insert_summary a l else a :: b :: l

/-- Stable descending sort by `total_time` (prometheus.py:217-218). -/
def sort_summaries (l : List AlertSummary) : List AlertSummary :=
  l.foldl (fun acc a => insert_summary a acc) []

/-- `_template_vars` (prometheus.py:167-226): the ranked summary, and the
timeline built from the summaries in encounter order (`summary`, not
`time_ordered`, is what line 220 iterates). -/
def template_vars (v : ViewCfg) (rp : ReportCfg) (tbl : List Row) : TemplateVars :=
  { summary := sort_summaries (encounter_summaries v tbl),
    timeline := normalize_time_windows rp.start_date rp.timedelta
      (((encounter_summaries v tbl).map AlertSummary.windows).flatten),
    show_timeline := v.show_timeline }

/-- Modelled from the spec's words (§4.2, window construction): running
window against the remaining timestamps. -/
def spec_ctw (res : ℚ) : (ℚ × ℚ) → List ℚ → List (ℚ × ℚ)
  | cur, [] => [cur]
  | cur, t :: ts =>
    if t > cur.2 then cur :: spec_ctw res (t, t + res) ts
    else spec_ctw res (cur.1, t + res) ts

/-- Modelled from the spec's words (§4.2 "Window construction algorithm
(`compute_time_windows`)"): empty in, empty out; otherwise start
`[t₁, t₁+resolution]` and fold the subsequent timestamps. -/
def spec_compute_time_windows (res : ℚ) : List ℚ → List (ℚ × ℚ)
  | [] => []
  | t :: ts => spec_ctw res (t, t + res) ts

/-- Modelled from the spec's words (§4.2, window compression): merge the next
window into the running one exactly when its start is strictly less than the
running end. -/
def spec_merge : (ℚ × ℚ) → List (ℚ × ℚ) → List (ℚ × ℚ)
  | cur, [] => [cur]
  | cur, w :: ws =>
    if w.1 < cur.2 then spec_merge (cur.1, max cur.2 w.2) ws
    else cur :: spec_merge w ws

/-- Modelled from the spec's words (§4.2 "Window compression algorithm
(`compress_time_windows`)"): sort by start ascending, then merge. -/
def spec_compress_time_windows (ws : List (ℚ × ℚ)) : List (ℚ × ℚ) :=
  match sort_by_start ws with
  | [] => []
  | w :: rest => spec_merge w rest

/-! ### The imperative loops against their structural recursions -/

lemma foldl_ctw (res : ℚ) :
    ∀ (ts : List ℚ) (cur : ℚ × ℚ) (done : List (ℚ × ℚ)),
      (ts.foldl (ctw_step res) (cur :: done)).reverse
        = done.reverse ++ spec_ctw res cur ts := by
  intro ts
  induction ts with
  | nil => intro cur done; simp [spec_ctw]
  | cons t ts ih =>
    intro cur done
    obtain ⟨s, e⟩ := cur
    by_cases h : t > e
    · have hstep : ctw_step res ((s, e) :: done) t = (t, t + res) :: (s, e) :: done := by
        simp [ctw_step, h]
      have hspec : spec_ctw res (s, e) (t :: ts) = (s, e) :: spec_ctw res (t, t + res) ts := by
        simp [spec_ctw, h]
      rw [List.foldl_cons, hstep, hspec, ih]
      simp
    · have hstep : ctw_step res ((s, e) :: done) t = (s, t + res) :: done := by
        simp [ctw_step, h]
      have hspec : spec_ctw res (s, e) (t :: ts) = spec_ctw res (s, t + res) ts := by
        simp [spec_ctw, h]
      rw [List.foldl_cons, hstep, hspec, ih]

lemma ctw_step_first (res t : ℚ) (hres : 0 ≤ res) :
    ctw_step res [(t, t + res)] t = [(t, t + res)] := by
  have h : ¬ t > t + res := by linarith
  simp [ctw_step, h]

lemma compute_eq_spec (res : ℚ) (hres : 0 ≤ res) (ts : List ℚ) :
    compute_time_windows res ts = spec_compute_time_windows res ts := by
  cases ts with
  | nil => rfl
  | cons t0 rest =>
    show ((t0 :: rest).foldl (ctw_step res) [(t0, t0 + res)]).reverse = _
    rw [List.foldl_cons, ctw_step_first res t0 hres]
    simpa [spec_compute_time_windows] using foldl_ctw res rest (t0, t0 + res) []

lemma foldl_compress :
    ∀ (ws : List (ℚ × ℚ)) (cur : ℚ × ℚ) (done : List (ℚ × ℚ)),
      (ws.foldl compress_step (cur :: done)).reverse
        = done.reverse ++ spec_merge cur ws := by
  intro ws
  induction ws with
  | nil => intro cur done; simp [spec_merge]
  | cons w ws ih =>
    intro cur done
    obtain ⟨s, e⟩ := cur
    by_cases h : w.1 < e
    · have hstep : compress_step ((s, e) :: done) w = (s, max e w.2) :: done := by
        simp [compress_step, h]
      have hspec : spec_merge (s, e) (w :: ws) = spec_merge (s, max e w.2) ws := by
        simp [spec_merge, h]
      rw [List.foldl_cons, hstep, hspec, ih]
    · have hstep : compress_step ((s, e) :: done) w = (w.1, w.2) :: (s, e) :: done := by
        simp [compress_step, h]
      have hspec : spec_merge (s, e) (w :: ws) = (s, e) :: spec_merge w ws := by
        simp [spec_merge, h]
      rw [List.foldl_cons, hstep, hspec, ih]
      simp

lemma compress_eq_spec (ws : List (ℚ × ℚ)) :
    compress_time_windows ws = spec_compress_time_windows ws := by
  unfold compress_time_windows spec_compress_time_windows
  cases h : sort_by_start ws with
  | nil => simp
  | cons w rest =>
    rw [List.foldl_cons]
    have hstep : compress_step [] w = [w] := rfl
    rw [hstep]
    simpa using foldl_compress rest w []

/-! ### The start-sort is a stable ascending sort -/

lemma insert_by_start_perm (w : ℚ × ℚ) (l : List (ℚ × ℚ)) :
    List.Perm (insert_by_start w l) (w :: l) := by
  induction l with
  | nil => exact List.Perm.refl _
  | cons x xs ih =>
    by_cases h : x.1 ≤ w.1
    · simp only [insert_by_start, if_pos h]
      exact (ih.cons x).trans (List.Perm.swap w x xs)
    · simp only [insert_by_start, if_neg h]
      exact List.Perm.refl _

lemma sort_by_start_perm (ws : List (ℚ × ℚ)) : List.Perm (sort_by_start ws) ws := by
  suffices h : ∀ (l acc : List (ℚ × ℚ)),
      List.Perm (l.foldl (fun acc w => insert_by_start w acc) acc) (acc ++ l) by
    simpa using h ws []
  intro l
  induction l with
  | nil => intro acc; simp
  | cons w l ih =>
    intro acc
    rw [List.foldl_cons]
    refine (ih (insert_by_start w acc)).trans ?_
    refine (List.Perm.append_right l (insert_by_start_perm w acc)).trans ?_
    simpa using (List.perm_middle).symm

lemma insert_by_start_sorted {w : ℚ × ℚ} {l : List (ℚ × ℚ)}
    (hl : List.Sorted (fun a b : ℚ × ℚ => a.1 ≤ b.1) l) :
    List.Sorted (fun a b : ℚ × ℚ => a.1 ≤ b.1) (insert_by_start w l) := by
  induction l with
  | nil => simp [insert_by_start]
  | cons x xs ih =>
    rw [List.sorted_cons] at hl
    by_cases h : x.1 ≤ w.1
    · simp only [insert_by_start, if_pos h]
      rw [List.sorted_cons]
      refine ⟨?_, ih hl.2⟩
      intro b hb
      rcases List.mem_cons.mp ((insert_by_start_perm w xs).mem_iff.mp hb) with rfl | hb
      · exact h
      · exact hl.1 b hb
    · simp only [insert_by_start, if_neg h]
      push_neg at h
      rw [List.sorted_cons]
      refine ⟨?_, List.sorted_cons.mpr hl⟩
      intro b hb
      rcases List.mem_cons.mp hb with rfl | hb
      · exact le_of_lt h
      · exact le_trans (le_of_lt h) (hl.1 b hb)

lemma sort_by_start_sorted (ws : List (ℚ × ℚ)) :
    List.Sorted (fun a b : ℚ × ℚ => a.1 ≤ b.1) (sort_by_start ws) := by
  suffices h : ∀ (l acc : List (ℚ × ℚ)),
      List.Sorted (fun a b : ℚ × ℚ => a.1 ≤ b.1) acc →
      List.Sorted (fun a b : ℚ × ℚ => a.1 ≤ b.1)
        (l.foldl (fun acc w => insert_by_start w acc) acc) by
    exact h ws [] (by simp)
  intro l
  induction l with
  | nil => intro acc hacc; simpa using hacc
  | cons w l ih =>
    intro acc hacc
    rw [List.foldl_cons]
    exact ih _ (insert_by_start_sorted hacc)

/-! ### Total time -/

lemma total_time_eq_sum (ws : List (ℚ × ℚ)) :
    total_time ws = (ws.map (fun w => w.2 - w.1)).sum := by
  suffices h : ∀ (l : List (ℚ × ℚ)) (init : ℚ),
      l.foldl (fun agg x => agg + (x.2 - x.1)) init
        = init + (l.map (fun w => w.2 - w.1)).sum by
    simpa [total_time] using h ws 0
  intro l
  induction l with
  | nil => intro init; simp
  | cons x l ih =>
    intro init
    rw [List.foldl_cons, ih, List.map_cons, List.sum_cons]
    ring

/-! ### Starts of the compressed windows are ascending -/

lemma spec_merge_start_mem :
    ∀ (ws : List (ℚ × ℚ)) (cur x : ℚ × ℚ), x ∈ spec_merge cur ws →
      x.1 = cur.1 ∨ ∃ w ∈ ws, x.1 = w.1 := by
  intro ws
  induction ws with
  | nil =>
    intro cur x hx
    left
    have hx2 : x = cur := by simpa [spec_merge] using hx
    rw [hx2]
  | cons w ws ih =>
    intro cur x hx
    by_cases h : w.1 < cur.2
    · rw [show spec_merge cur (w :: ws) = spec_merge (cur.1, max cur.2 w.2) ws from by
        simp [spec_merge, h]] at hx
      rcases ih _ x hx with h1 | ⟨u, hu, h2⟩
      · left; exact h1
      · right; exact ⟨u, List.mem_cons_of_mem _ hu, h2⟩
    · rw [show spec_merge cur (w :: ws) = cur :: spec_merge w ws from by
        simp [spec_merge, h]] at hx
      rcases List.mem_cons.mp hx with rfl | hx
      · left; rfl
      · rcases ih w x hx with h1 | ⟨u, hu, h2⟩
        · right; exact ⟨w, List.mem_cons_self _ _, h1⟩
        · right; exact ⟨u, List.mem_cons_of_mem _ hu, h2⟩

lemma spec_merge_starts_sorted :
    ∀ (ws : List (ℚ × ℚ)) (cur : ℚ × ℚ),
      (∀ w ∈ ws, cur.1 ≤ w.1) → List.Sorted (· ≤ ·) (ws.map Prod.fst) →
      List.Sorted (· ≤ ·) ((spec_merge cur ws).map Prod.fst) := by
  intro ws
  induction ws with
  | nil => intro cur _ _; simp [spec_merge]
  | cons w ws ih =>
    intro cur hcur hsort
    rw [List.map_cons, List.sorted_cons] at hsort
    by_cases h : w.1 < cur.2
    · rw [show spec_merge cur (w :: ws) = spec_merge (cur.1, max cur.2 w.2) ws from by
        simp [spec_merge, h]]
      exact ih _ (fun u hu => hcur u (List.mem_cons_of_mem _ hu)) hsort.2
    · rw [show spec_merge cur (w :: ws) = cur :: spec_merge w ws from by
        simp [spec_merge, h]]
      rw [List.map_cons, List.sorted_cons]
      constructor
      · intro b hb
        rw [List.mem_map] at hb
        obtain ⟨x, hx, rfl⟩ := hb
        rcases spec_merge_start_mem ws w x hx with h1 | ⟨u, hu, h2⟩
        · rw [h1]; exact hcur w (List.mem_cons_self _ _)
        · rw [h2]; exact hcur u (List.mem_cons_of_mem _ hu)
      · exact ih w (fun u hu => hsort.1 u.1 (List.mem_map_of_mem _ hu)) hsort.2

lemma compress_starts_sorted (ws : List (ℚ × ℚ)) :
    List.Sorted (· ≤ ·) ((compress_time_windows ws).map Prod.fst) := by
  rw [compress_eq_spec]
  unfold spec_compress_time_windows
  cases h : sort_by_start ws with
  | nil => simp
  | cons w rest =>
    have hs := sort_by_start_sorted ws
    rw [h, List.sorted_cons] at hs
    refine spec_merge_starts_sorted rest w (fun u hu => hs.1 u hu) ?_
    exact List.Pairwise.map Prod.fst (fun a b hab => hab) hs.2

/-! ### Rounding to two decimals -/

lemma round2_mono {x y : ℚ} (h : x ≤ y) : round2 x ≤ round2 y := by
  unfold round2
  have h2 : round (100 * x) ≤ round (100 * y) := by
    rw [round_eq, round_eq]
    exact Int.floor_le_floor (by linarith)
  have h3 : ((round (100 * x) : ℤ) : ℚ) ≤ ((round (100 * y) : ℤ) : ℚ) :=
    Int.cast_le.mpr h2
  linarith

lemma round2_zero : round2 0 = 0 := by
  unfold round2
  norm_num

lemma max_round2 (x : ℚ) : max 0 (round2 x) = round2 (max 0 x) := by
  rcases le_total x 0 with h | h
  · have hr : round2 x ≤ 0 := by simpa [round2_zero] using round2_mono h
    rw [max_eq_left hr, max_eq_left h, round2_zero]
  · have hr : 0 ≤ round2 x := by simpa [round2_zero] using round2_mono h
    rw [max_eq_right hr, max_eq_right h]

/-! ### The summary ranking is a stable descending sort -/

lemma insert_summary_perm (a : AlertSummary) (l : List AlertSummary) :
    List.Perm (insert_summary a l) (a :: l) := by
  induction l with
  | nil => exact List.Perm.refl _
  | cons b l ih =>
    by_cases h : a.total_time ≤ b.total_time
    · simp only [insert_summary, if_pos h]
      exact (ih.cons b).trans (List.Perm.swap a b l)
    · simp only [insert_summary, if_neg h]
      exact List.Perm.refl _

lemma sort_summaries_perm (l : List AlertSummary) : List.Perm (sort_summaries l) l := by
  suffices h : ∀ (l acc : List AlertSummary),
      List.Perm (l.foldl (fun acc a => insert_summary a acc) acc) (acc ++ l) by
    simpa using h l []
  intro l
  induction l with
  | nil => intro acc; simp
  | cons a l ih =>
    intro acc
    rw [List.foldl_cons]
    refine (ih (insert_summary a acc)).trans ?_
    refine (List.Perm.append_right l (insert_summary_perm a acc)).trans ?_
    simpa using (List.perm_middle).symm

lemma insert_summary_sorted {a : AlertSummary} {l : List AlertSummary}
    (hl : List.Sorted (fun x y : AlertSummary => y.total_time ≤ x.total_time) l) :
    List.Sorted (fun x y : AlertSummary => y.total_time ≤ x.total_time)
      (insert_summary a l) := by
  induction l with
  | nil => simp [insert_summary]
  | cons b l ih =>
    rw [List.sorted_cons] at hl
    by_cases h : a.total_time ≤ b.total_time
    · simp only [insert_summary, if_pos h]
      rw [List.sorted_cons]
      refine ⟨?_, ih hl.2⟩
      intro c hc
      rcases List.mem_cons.mp ((insert_summary_perm a l).mem_iff.mp hc) with rfl | hc
      · exact h
      · exact hl.1 c hc
    · simp only [insert_summary, if_neg h]
      push_neg at h
      rw [List.sorted_cons]
      refine ⟨?_, List.sorted_cons.mpr hl⟩
      intro c hc
      rcases List.mem_cons.mp hc with rfl | hc
      · exact le_of_lt h
      · exact le_trans (hl.1 c hc) (le_of_lt h)

lemma sort_summaries_sorted (l : List AlertSummary) :
    List.Sorted (fun x y : AlertSummary => y.total_time ≤ x.total_time)
      (sort_summaries l) := by
  suffices h : ∀ (l acc : List AlertSummary),
      List.Sorted (fun x y : AlertSummary => y.total_time ≤ x.total_time) acc →
      List.Sorted (fun x y : AlertSummary => y.total_time ≤ x.total_time)
        (l.foldl (fun acc a => insert_summary a acc) acc) by
    exact h l [] (by simp)
  intro l
  induction l with
  | nil => intro acc hacc; simpa using hacc
  | cons a l ih =>
    intro acc hacc
    rw [List.foldl_cons]
    exact ih _ (insert_summary_sorted hacc)

lemma filter_eq_nil_of_bounded_lt {q : ℚ} {b : AlertSummary} {l : List AlertSummary}
    (hl : ∀ c ∈ l, c.total_time ≤ b.total_time) (hb : b.total_time < q) :
    l.filter (fun x => decide (x.total_time = q)) = [] := by
  rw [List.filter_eq_nil_iff]
  intro c hc
  simp only [decide_eq_true_eq]
  intro hcq
  have := hl c hc
  rw [hcq] at this
  exact absurd this (not_le.mpr hb)

lemma insert_summary_filter (a : AlertSummary) (q : ℚ) :
    ∀ (l : List AlertSummary),
      List.Sorted (fun x y : AlertSummary => y.total_time ≤ x.total_time) l →
      (insert_summary a l).filter (fun x => decide (x.total_time = q))
        = l.filter (fun x => decide (x.total_time = q))
          ++ (if a.total_time = q then [a] else []) := by
  intro l
  induction l with
  | nil =>
    intro _
    by_cases h : a.total_time = q
    · simp [insert_summary, h]
    · simp [insert_summary, h]
  | cons b l ih =>
    intro hl
    rw [List.sorted_cons] at hl
    by_cases h : a.total_time ≤ b.total_time
    · simp only [insert_summary, if_pos h, List.filter_cons]
      rw [ih hl.2]
      by_cases hb : b.total_time = q
      · simp [hb]
      · simp [hb]
    · have hba : b.total_time < a.total_time := not_le.mp h
      rw [show insert_summary a (b :: l) = a :: b :: l from by simp [insert_summary, h]]
      by_cases ha : a.total_time = q
      · have hnil : (b :: l).filter (fun x => decide (x.total_time = q)) = [] := by
          refine filter_eq_nil_of_bounded_lt (b := b) ?_ (ha ▸ hba)
          intro c hc
          rcases List.mem_cons.mp hc with rfl | hc
          · exact le_refl _
          · exact hl.1 c hc
        have hstep : (a :: b :: l).filter (fun x => decide (x.total_time = q))
            = a :: (b :: l).filter (fun x => decide (x.total_time = q)) := by
          simp [List.filter_cons, ha]
        rw [hstep, hnil, if_pos ha]
        simp
      · have hstep : (a :: b :: l).filter (fun x => decide (x.total_time = q))
            = (b :: l).filter (fun x => decide (x.total_time = q)) := by
          simp [List.filter_cons, ha]
        rw [hstep, if_neg ha]
        simp

lemma sort_summaries_filter (l : List AlertSummary) (q : ℚ) :
    (sort_summaries l).filter (fun x => decide (x.total_time = q))
      = l.filter (fun x => decide (x.total_time = q)) := by
  suffices h : ∀ (l acc : List AlertSummary),
      List.Sorted (fun x y : AlertSummary => y.total_time ≤ x.total_time) acc →
      (l.foldl (fun acc a => insert_summary a acc) acc).filter
          (fun x => decide (x.total_time = q))
        = acc.filter (fun x => decide (x.total_time = q))
            ++ l.filter (fun x => decide (x.total_time = q)) by
    simpa using h l [] (by simp)
  intro l
  induction l with
  | nil => intro acc _; simp
  | cons a l ih =>
    intro acc hacc
    rw [List.foldl_cons, ih (insert_summary a acc) (insert_summary_sorted hacc),
      insert_summary_filter a q acc hacc, List.filter_cons]
    by_cases ha : a.total_time = q
    · simp [ha, List.append_assoc]
    · simp [ha]

/-! ### Empty tables -/

lemma foldl_filter_nil (ps : List (String × String)) :
    ps.foldl
      (fun acc kv => acc.filter (fun row => decide (row.labels.lookup kv.1 = some kv.2)))
      ([] : List Row) = [] := by
  induction ps with
  | nil => rfl
  | cons kv ps ih =>
    rw [List.foldl_cons, List.filter_nil]
    exact ih

lemma apply_labels_filter_nil (lf : Option (List (String × String))) :
    apply_labels_filter lf [] = [] := by
  cases lf with
  | none => rfl
  | some ps => exact foldl_filter_nil ps

/-- A parsed resolution is never negative: the regex admits only an unsigned
integer count and every unit stands for a positive number of seconds. -/
lemma parse_resolution_nonneg : ∀ s q, parse_resolution s = Except.ok q → 0 ≤ q := by
  intro s q h
  simp only [parse_resolution] at h
  split at h
  · exact absurd h (by simp)
  · split at h
    · exact absurd h (by simp)
    · split at h
      · injection h with h2
        rw [← h2]
        have hu : ∀ u : Char, 0 < unitSeconds u := by
          intro u; unfold unitSeconds; split <;> norm_num
        exact mul_nonneg (Nat.cast_nonneg _) (le_of_lt (hu _))
      · split at h
        · exact absurd h (by simp)
        · exact absurd h (by simp)

/-! ### Shape of `parse_resolution` results -/

lemma takeWhile_all_append (p : Char → Bool) :
    ∀ (d : List Char) (u : Char) (r : List Char), (∀ c ∈ d, p c = true) → p u = false →
      (d ++ u :: r).takeWhile p = d := by
  intro d
  induction d with
  | nil => intro u r _ hu; simp [List.takeWhile_cons, hu]
  | cons c d ih =>
    intro u r hd hu
    have hc : p c = true := hd c (List.mem_cons_self _ _)
    simp only [List.cons_append, List.takeWhile_cons, hc, if_true]
    rw [ih u r (fun x hx => hd x (List.mem_cons_of_mem _ hx)) hu]

lemma dropWhile_all_append (p : Char → Bool) :
    ∀ (d : List Char) (u : Char) (r : List Char), (∀ c ∈ d, p c = true) → p u = false →
      (d ++ u :: r).dropWhile p = u :: r := by
  intro d
  induction d with
  | nil => intro u r _ hu; simp [List.dropWhile_cons, hu]
  | cons c d ih =>
    intro u r hd hu
    have hc : p c = true := hd c (List.mem_cons_self _ _)
    simp only [List.cons_append, List.dropWhile_cons, hc, if_true]
    exact ih u r (fun x hx => hd x (List.mem_cons_of_mem _ hx)) hu

lemma unit_not_digit {u : Char} (hu : u ∈ (['s', 'm', 'h', 'd', 'w'] : List Char)) :
    u.isDigit = false := by
  fin_cases hu <;> decide

/-- How `parse_resolution` behaves on a string that decomposes as a nonempty
digit run followed by a non-digit character. -/
lemma parse_resolution_eq (ds : List Char) (u : Char) (r : List Char) (s : String)
    (hdecomp : s.toList = ds ++ u :: r) (hne : ds ≠ [])
    (hdig : ∀ c ∈ ds, c.isDigit = true) (hu : u.isDigit = false) :
    parse_resolution s =
      (if u ∈ (['s', 'm', 'h', 'd', 'w'] : List Char) then
        Except.ok ((digitsVal ds : ℚ) * unitSeconds u)
      else if u = 'y' then Except.error ResolutionError.yearsTypeError
      else Except.error ResolutionError.invalidFormat) := by
  have htake : s.toList.takeWhile Char.isDigit = ds := by
    rw [hdecomp]; exact takeWhile_all_append _ ds u r hdig hu
  have hdrop : s.toList.dropWhile Char.isDigit = u :: r := by
    rw [hdecomp]; exact dropWhile_all_append _ ds u r hdig hu
  simp only [parse_resolution, htake, hdrop]
  rw [if_neg hne]

/-! ### Concrete tables used by the claim theorems -/

/-- Two firing samples of alert `a` in one label group, times 0 and 2 (both
round to 0 at resolution 10, producing a single window). -/
def tbl_two_samples : List Row :=
  [{ time := 0, value := 1, alertname := "a", alertstate := "firing", labels := [("l", "x")] },
   { time := 2, value := 1, alertname := "a", alertstate := "firing", labels := [("l", "x")] }]

/-- One label group whose samples arrive out of time order (prometheus
metrics interleaved in the appended frame): times 10 then 0. -/
def tbl_unsorted : List Row :=
  [{ time := 10, value := 1, alertname := "a", alertstate := "firing", labels := [("l", "x")] },
   { time := 0, value := 1, alertname := "a", alertstate := "firing", labels := [("l", "x")] }]

/-- Alert `a` (one firing period, total 10) encountered before alert `b`
(two periods, total 20), so ranking reverses encounter order. -/
def tbl_two_alerts : List Row :=
  [{ time := 0, value := 1, alertname := "a", alertstate := "firing", labels := [("l", "x")] },
   { time := 0, value := 1, alertname := "b", alertstate := "firing", labels := [("l", "x")] },
   { time := 20, value := 1, alertname := "b", alertstate := "firing", labels := [("l", "x")] }]

/-- The default view configuration with a parsed resolution of 10 seconds. -/
def view_r10 : ViewCfg :=
  { resolution := 10, ignore_labels := ["instance", "job"], labels := none,
    show_timeline := true }

/-- The default view configuration with a parsed resolution of 1 second. -/
def view_r1 : ViewCfg :=
  { resolution := 1, ignore_labels := ["instance", "job"], labels := none,
    show_timeline := true }

/-- A report running from instant 0 to instant 100. -/
def report0 : ReportCfg := { start_date := 0, timedelta := 100 }

/-- C2, counterexample to the claim as stated: resolution parsing does not
fail on every string with trailing characters after the unit — `"1sx"`
parses as 1 second — and on `"1y"` it raises the `timedelta` years
`TypeError` instead of returning 1 year or the invalid-resolution error. -/
theorem C2_counterexample :
    parse_resolution "1sx" = Except.ok 1
    ∧ parse_resolution "1y" = Except.error ResolutionError.yearsTypeError := by
  constructor <;>
  · simp only [parse_resolution]
    norm_num +decide [List.dropWhile_cons, List.takeWhile_cons, digitsVal, unitSeconds,
      (by decide : Char.toNat '1' = 49), (by decide : Char.toNat '0' = 48)]

/-- C2 (amended): `_parse_resolution` succeeds with `<integer> × <unit>`
exactly when the string STARTS with `<integer><unit>` for a unit in
{s, m, h, d, w} — trailing characters are ignored, because `re.match`
anchors only at the start — and a digit run followed by `y` raises the
years `TypeError` (`timedelta` has no `years` argument); every other string
fails with the invalid-resolution `ValueError`. -/
theorem C2_parse_characterisation (s : String) :
    (∀ q : ℚ, parse_resolution s = Except.ok q ↔
      ∃ ds u r, s.toList = ds ++ u :: r ∧ ds ≠ [] ∧ (∀ c ∈ ds, c.isDigit = true)
        ∧ u ∈ (['s', 'm', 'h', 'd', 'w'] : List Char)
        ∧ q = (digitsVal ds : ℚ) * unitSeconds u)
    ∧ (parse_resolution s = Except.error ResolutionError.yearsTypeError ↔
      ∃ ds r, s.toList = ds ++ 'y' :: r ∧ ds ≠ [] ∧ (∀ c ∈ ds, c.isDigit = true)) := by
  constructor
  · intro q
    constructor
    · intro h
      rcases hrest : s.toList.dropWhile Char.isDigit with _ | ⟨u, rest⟩
      · simp only [parse_resolution, hrest] at h
        simp at h
      · simp only [parse_resolution, hrest] at h
        by_cases hds : s.toList.takeWhile Char.isDigit = []
        · rw [if_pos hds] at h
          simp at h
        · rw [if_neg hds] at h
          by_cases hu : u ∈ (['s', 'm', 'h', 'd', 'w'] : List Char)
          · rw [if_pos hu] at h
            refine ⟨s.toList.takeWhile Char.isDigit, u, rest, ?_, hds, ?_, hu, ?_⟩
            · rw [← hrest, List.takeWhile_append_dropWhile]
            · intro c hc
              exact List.mem_takeWhile_imp hc
            · exact (Except.ok.inj h).symm
          · rw [if_neg hu] at h
            by_cases hy : u = 'y'
            · rw [if_pos hy] at h
              simp at h
            · rw [if_neg hy] at h
              simp at h
    · rintro ⟨ds, u, r, hdecomp, hne, hdig, hu, rfl⟩
      rw [parse_resolution_eq ds u r s hdecomp hne hdig (unit_not_digit hu), if_pos hu]
  · constructor
    · intro h
      rcases hrest : s.toList.dropWhile Char.isDigit with _ | ⟨u, rest⟩
      · simp only [parse_resolution, hrest] at h
        simp at h
      · simp only [parse_resolution, hrest] at h
        by_cases hds : s.toList.takeWhile Char.isDigit = []
        · rw [if_pos hds] at h
          simp at h
        · rw [if_neg hds] at h
          by_cases hu : u ∈ (['s', 'm', 'h', 'd', 'w'] : List Char)
          · rw [if_pos hu] at h
            simp at h
          · rw [if_neg hu] at h
            by_cases hy : u = 'y'
            · subst hy
              refine ⟨s.toList.takeWhile Char.isDigit, rest, ?_, hds, ?_⟩
              · rw [← hrest, List.takeWhile_append_dropWhile]
              · intro c hc
                exact List.mem_takeWhile_imp hc
            · rw [if_neg hy] at h
              simp at h
    · rintro ⟨ds, r, hdecomp, hne, hdig⟩
      rw [parse_resolution_eq ds 'y' r s hdecomp hne hdig (by decide)]
      rw [if_neg (by decide), if_pos rfl]

/-- C3: on an ascending timestamp sequence and a (nonnegative, as every
parsed resolution is) resolution, `_compute_time_windows` computes exactly
the spec's recursion: empty for empty input, `[[t, t+res]]` for a
singleton, and `[[0,15],[20,30]]` for `[0, 5, 20]` at resolution 10. -/
theorem C3_window_construction (res : ℚ) (ts : List ℚ)
    (hres : 0 ≤ res) (_hts : List.Sorted (· ≤ ·) ts) :
    compute_time_windows res ts = spec_compute_time_windows res ts
    ∧ compute_time_windows res [] = []
    ∧ (∀ t : ℚ, compute_time_windows res [t] = [(t, t + res)])
    ∧ compute_time_windows 10 [0, 5, 20] = [(0, 15), (20, 30)]
    ∧ (∀ s q, parse_resolution s = Except.ok q → 0 ≤ q) := by
  refine ⟨compute_eq_spec res hres ts, rfl, ?_,
    by norm_num [compute_time_windows, ctw_step, List.foldl_cons, List.foldl_nil],
    parse_resolution_nonneg⟩
  intro t
  rw [compute_eq_spec res hres [t]]
  rfl

/-- C3, witness: the theorem applied to resolution 10 and timestamps
`[0, 5, 20]`. -/
theorem C3_window_construction_witness :
    compute_time_windows 10 [0, 5, 20] = spec_compute_time_windows 10 [0, 5, 20]
    ∧ compute_time_windows 10 [] = []
    ∧ (∀ t : ℚ, compute_time_windows 10 [t] = [(t, t + 10)])
    ∧ compute_time_windows 10 [0, 5, 20] = [(0, 15), (20, 30)]
    ∧ (∀ s q, parse_resolution s = Except.ok q → 0 ≤ q) :=
  C3_window_construction 10 [0, 5, 20] (by norm_num)
    (by norm_num [List.sorted_cons])

/-- C4: `_compress_time_windows` stably sorts its input by start ascending
(the sorted list is a permutation of the input) and then performs the spec's
strict-overlap merge; touching windows stay separate, overlapping windows
merge. -/
theorem C4_window_compression (ws : List (ℚ × ℚ)) :
    compress_time_windows ws = spec_compress_time_windows ws
    ∧ List.Sorted (fun a b : ℚ × ℚ => a.1 ≤ b.1) (sort_by_start ws)
    ∧ List.Perm (sort_by_start ws) ws
    ∧ compress_time_windows [(0, 10), (10, 20)] = [(0, 10), (10, 20)]
    ∧ compress_time_windows [(0, 10), (5, 20)] = [(0, 20)] :=
  ⟨compress_eq_spec ws, sort_by_start_sorted ws, sort_by_start_perm ws,
    by norm_num [compress_time_windows, sort_by_start, insert_by_start, compress_step,
      List.foldl_cons, List.foldl_nil],
    by norm_num [compress_time_windows, sort_by_start, insert_by_start, compress_step,
      List.foldl_cons, List.foldl_nil]⟩

/-- C8: `_total_time` sums `end - start` over the windows; the compressed
windows `[[0,10],[20,25]]` give 15 time units and the empty list gives a
zero duration. -/
theorem C8_total_firing_time (ws : List (ℚ × ℚ)) :
    total_time ws = (ws.map (fun w => w.2 - w.1)).sum
    ∧ total_time [(0, 10), (20, 25)] = 15
    ∧ total_time ([] : List (ℚ × ℚ)) = 0 :=
  ⟨total_time_eq_sum ws, by norm_num [total_time, List.foldl_cons, List.foldl_nil], rfl⟩

/-- C1, counterexample to the claim as stated: in `tbl_two_samples` the two
raw firing timestamps 0 and 2 both round to 0 and both contribute to the
single constructed window of alert `a`, yet the summary's `num_firings` is
1 — `len(all_firings)` counts windows, not raw timestamps (which number 2). -/
theorem C1_counterexample :
    (template_vars view_r10 report0 tbl_two_samples).summary
      = [{ alertname := "a", total_time := 10, num_firings := 1, windows := [(0, 10)] }]
    ∧ (firing_rows tbl_two_samples).map Row.time = [0, 2]
    ∧ (1 : ℕ) ≠ 2 := by
  refine ⟨?_, ?_, by norm_num⟩
  · norm_num +decide [template_vars, encounter_summaries, pipeline_df, pipeline_cols,
      firing_rows, apply_labels_filter, df_columns, unique_keep, alert_summary_for,
      alert_rows, surviving_cols, all_firings, group_times, row_key, sort_lex, insert_lex,
      lex_le, compute_time_windows, ctw_step, compress_time_windows, compress_step,
      sort_by_start, insert_by_start, total_time, round_to_res, round2, round_eq,
      normalize_time_windows, sort_summaries, insert_summary,
      List.foldl_cons, List.foldl_nil, List.lookup, tbl_two_samples, view_r10, report0]
  · norm_num +decide [firing_rows, tbl_two_samples]

/-- C1 (amended): each Alert Summary's `num_firings` equals the total number
of constructed, pre-compression windows over all of the alert name's label
groups (`len(all_firings)`), not the raw timestamp count. -/
theorem C1_num_firings (v : ViewCfg) (rp : ReportCfg) (tbl : List Row)
    (s : AlertSummary) (hs : s ∈ (template_vars v rp tbl).summary) :
    s.num_firings
      = ((group_times
            (surviving_cols (pipeline_cols v tbl)
              (alert_rows v.resolution (pipeline_df v tbl) s.alertname))
            (alert_rows v.resolution (pipeline_df v tbl) s.alertname)).map
          (fun g => compute_time_windows v.resolution g.2)).flatten.length := by
  have hs2 : s ∈ encounter_summaries v tbl :=
    (sort_summaries_perm (encounter_summaries v tbl)).mem_iff.mp hs
  obtain ⟨a, ha, rfl⟩ := List.mem_map.mp hs2
  rfl

/-- The one Alert Summary `tbl_two_samples` produces. -/
def summary_a : AlertSummary :=
  { alertname := "a", total_time := 10, num_firings := 1, windows := [(0, 10)] }

/-- C1, witness: the amended claim applied to the concrete two-sample table. -/
theorem C1_num_firings_witness :
    summary_a.num_firings
      = ((group_times
            (surviving_cols (pipeline_cols view_r10 tbl_two_samples)
              (alert_rows view_r10.resolution (pipeline_df view_r10 tbl_two_samples)
                summary_a.alertname))
            (alert_rows view_r10.resolution (pipeline_df view_r10 tbl_two_samples)
              summary_a.alertname)).map
          (fun g => compute_time_windows view_r10.resolution g.2)).flatten.length :=
  C1_num_firings view_r10 report0 tbl_two_samples summary_a (by
    norm_num +decide [template_vars, encounter_summaries, pipeline_df, pipeline_cols,
      firing_rows, apply_labels_filter, df_columns, unique_keep, alert_summary_for,
      alert_rows, surviving_cols, all_firings, group_times, row_key, sort_lex, insert_lex,
      lex_le, compute_time_windows, ctw_step, compress_time_windows, compress_step,
      sort_by_start, insert_by_start, total_time, round_to_res, round2, round_eq,
      normalize_time_windows, sort_summaries, insert_summary, summary_a,
      List.foldl_cons, List.foldl_nil, List.lookup, tbl_two_samples, view_r10, report0])

/-- C5: each timeline entry is `(max 0 ∘ round2) (100·(start−report.start)/td)`
paired with `round2 (100·(end−start)/td)`; clamping before or after the
rounding gives the same value, the offset is floored at 0, and the width is
not clamped against the report end, so `offset + width` can exceed 100
(window `(50, 200)` on report `[0,100]` gives `(50, 150)`). -/
theorem C5_timeline_normalization (rp : ReportCfg) (_h : 0 < rp.timedelta)
    (ws : List (ℚ × ℚ)) :
    normalize_time_windows rp.start_date rp.timedelta ws
      = ws.map (fun w =>
          (round2 (max 0 (100 * (w.1 - rp.start_date) / rp.timedelta)),
           round2 (100 * (w.2 - w.1) / rp.timedelta)))
    ∧ normalize_time_windows 0 100 [(-10, 10)] = [(0, 20)]
    ∧ normalize_time_windows 0 100 [(50, 200)] = [(50, 150)]
    ∧ ¬ ((50 : ℚ) + 150 ≤ 100) := by
  refine ⟨?_, ?_, ?_, by norm_num⟩
  · have hfun : (fun w : ℚ × ℚ =>
        (max 0 (round2 (100 * (w.1 - rp.start_date) / rp.timedelta)),
         round2 (100 * (w.2 - w.1) / rp.timedelta)))
      = (fun w : ℚ × ℚ =>
        (round2 (max 0 (100 * (w.1 - rp.start_date) / rp.timedelta)),
         round2 (100 * (w.2 - w.1) / rp.timedelta))) := by
      funext w
      rw [max_round2]
    rw [normalize_time_windows, hfun]
  · norm_num [normalize_time_windows, round2, round_eq]
  · norm_num [normalize_time_windows, round2, round_eq]

/-- C5, witness: the theorem applied to the `[0,100]` report and the
pre-report window `(-10, 10)`. -/
theorem C5_timeline_normalization_witness :
    normalize_time_windows report0.start_date report0.timedelta [(-10, 10)]
      = [((-10 : ℚ), (10 : ℚ))].map (fun w =>
          (round2 (max 0 (100 * (w.1 - report0.start_date) / report0.timedelta)),
           round2 (100 * (w.2 - w.1) / report0.timedelta)))
    ∧ normalize_time_windows 0 100 [(-10, 10)] = [(0, 20)]
    ∧ normalize_time_windows 0 100 [(50, 200)] = [(50, 150)]
    ∧ ¬ ((50 : ℚ) + 150 ≤ 100) :=
  C5_timeline_normalization report0 (by norm_num [report0]) [(-10, 10)]

/-- The three ranking examples of the spec: total times 15, 5, 15 in
insertion order A, B, C. -/
def sA : AlertSummary :=
  { alertname := "A", total_time := 15, num_firings := 1, windows := [(0, 15)] }

def sB : AlertSummary :=
  { alertname := "B", total_time := 5, num_firings := 1, windows := [(0, 5)] }

def sC : AlertSummary :=
  { alertname := "C", total_time := 15, num_firings := 1, windows := [(20, 35)] }

/-- C6: the displayed summary list is the stable descending sort of the
encounter-order summaries by `total_time`: it is sorted descending, it is a
permutation keeping each key class in encounter order (the filter at every
key value is unchanged), and totals 15, 5, 15 in order A, B, C come out
A, C, B. -/
theorem C6_ranking_stable :
    (∀ l : List AlertSummary,
      List.Sorted (fun x y : AlertSummary => y.total_time ≤ x.total_time)
          (sort_summaries l)
        ∧ List.Perm (sort_summaries l) l
        ∧ ∀ q : ℚ, (sort_summaries l).filter (fun x => decide (x.total_time = q))
            = l.filter (fun x => decide (x.total_time = q)))
    ∧ (∀ (v : ViewCfg) (rp : ReportCfg) (tbl : List Row),
        (template_vars v rp tbl).summary = sort_summaries (encounter_summaries v tbl))
    ∧ sort_summaries [sA, sB, sC] = [sA, sC, sB] := by
  refine ⟨fun l => ⟨sort_summaries_sorted l, sort_summaries_perm l,
    fun q => sort_summaries_filter l q⟩, fun v rp tbl => rfl, ?_⟩
  norm_num [sort_summaries, insert_summary, sA, sB, sC, List.foldl_cons, List.foldl_nil]

/-- C7: the code violates the windows invariant.  `_template_vars` never
sorts a label group's timestamps before `_compute_time_windows` (the spec's
step 4 says it must), so a group whose samples arrive out of time order —
times 10 then 0 at resolution 1 — yields the summary window `(10, 1)` with
start greater than end (and a negative total time). -/
theorem C7_failing_eval :
    (template_vars view_r1 report0 tbl_unsorted).summary
      = [{ alertname := "a", total_time := -9, num_firings := 1, windows := [(10, 1)] }]
    ∧ ¬ ((10 : ℚ) ≤ 1) := by
  refine ⟨?_, by norm_num⟩
  norm_num +decide [template_vars, encounter_summaries, pipeline_df, pipeline_cols,
    firing_rows, apply_labels_filter, df_columns, unique_keep, alert_summary_for,
    alert_rows, surviving_cols, all_firings, group_times, row_key, sort_lex, insert_lex,
    lex_le, compute_time_windows, ctw_step, compress_time_windows, compress_step,
    sort_by_start, insert_by_start, total_time, round_to_res, round2, round_eq,
    normalize_time_windows, sort_summaries, insert_summary,
    List.foldl_cons, List.foldl_nil, List.lookup, tbl_unsorted, view_r1, report0]

/-- C10: the timeline normalizes the concatenation of the compressed windows
taken in alert-name encounter order — not the `total_time`-ranked order of
the displayed list — and within each alert name the compressed windows are
in ascending-start order; on `tbl_two_alerts` the encounter-order timeline
differs from what the ranked order would give. -/
theorem C10_timeline_order (v : ViewCfg) (rp : ReportCfg) (tbl : List Row) :
    (template_vars v rp tbl).timeline
      = normalize_time_windows rp.start_date rp.timedelta
          (((encounter_summaries v tbl).map AlertSummary.windows).flatten)
    ∧ (∀ s ∈ encounter_summaries v tbl,
        List.Sorted (· ≤ ·) (s.windows.map Prod.fst))
    ∧ (template_vars view_r10 report0 tbl_two_alerts).timeline
        = [(0, 10), (0, 10), (20, 10)]
    ∧ normalize_time_windows report0.start_date report0.timedelta
        (((sort_summaries (encounter_summaries view_r10 tbl_two_alerts)).map
            AlertSummary.windows).flatten)
        = [(0, 10), (20, 10), (0, 10)]
    ∧ ([((0 : ℚ), (10 : ℚ)), (0, 10), (20, 10)] : List (ℚ × ℚ))
        ≠ [(0, 10), (20, 10), (0, 10)] := by
  refine ⟨rfl, ?_, ?_, ?_, by norm_num⟩
  · intro s hs
    obtain ⟨a, ha, rfl⟩ := List.mem_map.mp hs
    exact compress_starts_sorted _
  · norm_num +decide [template_vars, encounter_summaries, pipeline_df, pipeline_cols,
      firing_rows, apply_labels_filter, df_columns, unique_keep, alert_summary_for,
      alert_rows, surviving_cols, all_firings, group_times, row_key, sort_lex, insert_lex,
      lex_le, compute_time_windows, ctw_step, compress_time_windows, compress_step,
      sort_by_start, insert_by_start, total_time, round_to_res, round2, round_eq,
      normalize_time_windows, sort_summaries, insert_summary,
      List.foldl_cons, List.foldl_nil, List.lookup, tbl_two_alerts, view_r10, report0]
  · norm_num +decide [encounter_summaries, pipeline_df, pipeline_cols,
      firing_rows, apply_labels_filter, df_columns, unique_keep, alert_summary_for,
      alert_rows, surviving_cols, all_firings, group_times, row_key, sort_lex, insert_lex,
      lex_le, compute_time_windows, ctw_step, compress_time_windows, compress_step,
      sort_by_start, insert_by_start, total_time, round_to_res, round2, round_eq,
      normalize_time_windows, sort_summaries, insert_summary,
      List.foldl_cons, List.foldl_nil, List.lookup, tbl_two_alerts, view_r10, report0]

end Kpi
